import Mathlib

/-!
DreamBerd-rs: a verification of the evaluator core.

Shallow embedding of the tree-walking evaluator of DreamBerd-rs
(`src/interpreter.rs`, `src/types/pointer.rs`, `src/types/mod.rs`),
with the data model those files depend on.

Modelling decisions, stated once:

* Rust's `Rc<RefCell<Value>>` (shared, mutable storage) is modelled as an
  address into an explicit heap of cells; `Rc<Value>` (owned, immutable
  storage) is modelled as the value itself, since an immutable shared
  value is observationally a copy.  `Rc<RefCell<State>>` scope frames are
  likewise an arena of frames in the same heap, each holding an optional
  parent index.
* Rust `f64` Numbers are modelled as `Rat`: the claims under analysis only
  inspect a zero test and exact division, where `Rat` agrees with the
  floating semantics away from NaN (and `-0.0 == 0.0` collapses to `0 = 0`).
* The recursive evaluator is given an explicit fuel argument; exhausting
  fuel is reported through the same channel as a Rust panic (the host's
  stack-exhaustion behaviour).  A `Fault` distinguishes the recoverable
  `SResult` error channel (`Fault.err`, Rust `Err(String)`) from a Rust
  panic (`Fault.fatal`, raised by the panicking macros), which unwinds past the
  evaluator rather than being caught by it.
* Files `types/state.rs`, `types/syntax.rs`, `types/value.rs` and the
  lexer/parser are not part of the sources under analysis; every
  definition drawn from them is marked `Modelled from the spec:` in its
  doc string and follows the specification text.  Everything else is a
  direct translation of the Rust sources named above.
-/

namespace DreamBerd

/-- Modelled from the spec: the three-valued truth domain
{True, False, Maybe} of `types/value.rs` (`Boolean`). -/
inductive Boolean where
  | True
  | False
  | Maybe
deriving DecidableEq

/-- Modelled from the spec: the fixed built-in set of `types/value.rs`
(`Keyword`): conditional, delete, define, eval. -/
inductive Keyword where
  | If
  | Delete
  | Function
  | Eval
deriving DecidableEq

/-- Modelled from the spec: the binary operators of `types/syntax.rs`
(`Operation`), exactly the set dispatched on in `interpret_operation`.
`Equal n` carries the number of consecutive source-level signs
(a `u8` in Rust, modelled as `Nat`; the parser only produces positive
depths). -/
inductive Operation where
  | Equal (depth : Nat)
  | Add
  | Sub
  | Mul
  | Div
  | Mod
  | Dot
  | And
  | Or
  | AddEq
  | SubEq
  | MulEq
  | DivEq
  | ModEq
  | Lt
  | Le
  | Gt
  | Ge
  | Arrow
deriving DecidableEq

/-- Modelled from the spec: the four declaration mutability combinations
of `types/syntax.rs` (`VarType`): first component is reassignability of
the binding, second is shared-ness of the storage, matching the naming of
the four `Pointer` variants. -/
inductive VarType where
  | ConstConst
  | ConstVar
  | VarConst
  | VarVar
deriving DecidableEq

/-- Modelled from the spec: a segment of an interpolated string literal
(`types/token.rs`, `StringSegment`): literal text or an identifier to be
looked up and stringified. -/
inductive StringSegment where
  | ident (name : String)
  | lit (text : String)
deriving DecidableEq

/-- Modelled from the spec: the syntax-tree node kinds of
`types/syntax.rs` (`Syntax`), exactly the set the evaluator dispatches
on: debug/statement wrapper, negation, binary operation, block,
declaration, interpolated string, call, identifier reference, function
literal. -/
inductive Syntax where
  | statement (printing : Bool) (content : Syntax) (level : Nat)
  | negate (content : Syntax)
  | operation (lhs : Syntax) (op : Operation) (rhs : Syntax)
  | block (statements : List Syntax)
  | declare (vt : VarType) (name : String) (value : Syntax)
  | interpolate (segments : List StringSegment)
  | call (func : String) (args : List Syntax)
  | ident (name : String)
  | function (params : List String) (body : Syntax)

mutual
/-- Modelled from the spec: structural equality of syntax trees, standing
for the derived `PartialEq` on `types/syntax.rs` (`Syntax`). -/
def Syntax.beq : Syntax → Syntax → Bool
  | .statement p c l, .statement p' c' l' => p == p' && Syntax.beq c c' && l == l'
  | .negate c, .negate c' => Syntax.beq c c'
  | .operation l op r, .operation l' op' r' =>
      Syntax.beq l l' && op == op' && Syntax.beq r r'
  | .block ss, .block ts => Syntax.beqList ss ts
  | .declare vt n v, .declare vt' n' v' => vt == vt' && n == n' && Syntax.beq v v'
  | .interpolate segs, .interpolate segs' => segs == segs'
  | .call f as, .call f' as' => f == f' && Syntax.beqList as as'
  | .ident n, .ident n' => n == n'
  | .function ps b, .function ps' b' => ps == ps' && Syntax.beq b b'
  | _, _ => false

/-- Pairwise structural equality of syntax-tree lists. -/
def Syntax.beqList : List Syntax → List Syntax → Bool
  | [], [] => true
  | s :: ss, t :: ts => Syntax.beq s t && Syntax.beqList ss ts
  | _, _ => false
end

mutual
/-- Modelled from the spec: the runtime value kinds of `types/value.rs`
(`Value`): 64-bit-float numbers (modelled as `Rat`), strings, three-valued
booleans, mapping-objects (`HashMap<Value, Pointer>`, modelled as an
association list looked up by structural key equality), user functions
(parameter names plus an uninterpreted body, no environment capture),
built-in keywords, and the undefined sentinel. -/
inductive Value where
  | number (n : Rat)
  | string (s : String)
  | boolean (b : Boolean)
  | object (fields : List (Value × Pointer))
  | function (params : List String) (body : Syntax)
  | keyword (k : Keyword)
  | undefined

/-- Translated from `types/pointer.rs` (`Pointer`): a handle to a Value.
`constConst`/`varConst` hold an `Rc<Value>` (owned storage, modelled as
the value); `constVar`/`varVar` hold an `Rc<RefCell<Value>>` (shared
storage, modelled as a heap-cell address).  The first half of the name is
reassignability, the second shared-ness. -/
inductive Pointer where
  | constConst (v : Value)
  | constVar (addr : Nat)
  | varConst (v : Value)
  | varVar (addr : Nat)
end

mutual
/-- Modelled from the spec: structural equality of runtime values,
standing for the `PartialEq` of `types/value.rs` (`Value`) that backs
`HashMap<Value, Pointer>` key lookup and the zero test of `Div`.
Object payloads are compared field-by-field in insertion order; the
`HashMap` is order-insensitive, but object-valued keys never arise in
the behaviours under analysis. -/
def Value.beq : Value → Value → Bool
  | .number a, .number b => a == b
  | .string a, .string b => a == b
  | .boolean a, .boolean b => a == b
  | .object fs, .object gs => Value.fieldsBeq fs gs
  | .function ps b, .function ps' b' => ps == ps' && Syntax.beq b b'
  | .keyword a, .keyword b => a == b
  | .undefined, .undefined => true
  | _, _ => false

/-- Pairwise equality of object field lists. -/
def Value.fieldsBeq : List (Value × Pointer) → List (Value × Pointer) → Bool
  | [], [] => true
  | (k, p) :: fs, (l, q) :: gs =>
      Value.beq k l && Pointer.beq p q && Value.fieldsBeq fs gs
  | _, _ => false

/-- Translated from `types/pointer.rs` (the derived `PartialEq` on
`Pointer`): handles are equal when they have the same variant and their
stored contents are equal (`Rc` and `RefCell` both compare by contents).
Shared handles are compared here by address, which implies (but is finer
than) Rust's content comparison; this derived instance is not what the
language's `==` operator uses (that is `Pointer::eq`, below). -/
def Pointer.beq : Pointer → Pointer → Bool
  | .constConst v, .constConst w => Value.beq v w
  | .varConst v, .varConst w => Value.beq v w
  | .constVar a, .constVar b => a == b
  | .varVar a, .varVar b => a == b
  | _, _ => false
end

/-- A binding frame: one scope of the environment chain.  Modelled from
the spec: each frame owns a mapping identifier → Pointer and a shared
reference to its optional parent frame (`types/state.rs`, `State`). -/
structure Frame where
  vars : List (String × Pointer)
  parent : Option Nat

/-- The explicit heap standing for Rust's `Rc`-managed stores: `cells`
models every live `Rc<RefCell<Value>>`, `frames` every live
`Rc<RefCell<State>>`.  Addresses are list indices; allocation appends. -/
structure Heap where
  cells : List Value
  frames : List Frame

def Heap.getCell (h : Heap) (a : Nat) : Value :=
  h.cells.getD a .undefined

def Heap.setCell (h : Heap) (a : Nat) (v : Value) : Heap :=
  { h with cells := h.cells.set a v }

def Heap.pushCell (h : Heap) (v : Value) : Heap :=
  { h with cells := h.cells ++ [v] }

def Heap.getFrame (h : Heap) (a : Nat) : Frame :=
  h.frames.getD a ⟨[], none⟩

def Heap.setFrame (h : Heap) (a : Nat) (f : Frame) : Heap :=
  { h with frames := h.frames.set a f }

def Heap.pushFrame (h : Heap) (f : Frame) : Heap :=
  { h with frames := h.frames ++ [f] }

/-- Translated from `types/pointer.rs` (`Pointer::clone_inner`): the
pointed-to Value, dereferencing shared storage through the heap. -/
def Pointer.cloneInner (p : Pointer) (h : Heap) : Value :=
  match p with
  | .constConst v => v
  | .varConst v => v
  | .constVar a => h.getCell a
  | .varVar a => h.getCell a

/-- Whether this handle may be reassigned (the `Var*` variants). -/
def Pointer.isReassignable : Pointer → Bool
  | .constConst _ => false
  | .constVar _ => false
  | .varConst _ => true
  | .varVar _ => true

/-- Whether this handle's storage is shared (the `*Var` variants,
`Rc<RefCell<Value>>` in Rust). -/
def Pointer.isShared : Pointer → Bool
  | .constConst _ => false
  | .varConst _ => false
  | .constVar _ => true
  | .varVar _ => true

/-- The shared-cell address of a shared handle. -/
def Pointer.sharedAddr : Pointer → Option Nat
  | .constVar a => some a
  | .varVar a => some a
  | _ => none

/-- The owned value of an owned handle. -/
def Pointer.ownedVal : Pointer → Option Value
  | .constConst v => some v
  | .varConst v => some v
  | _ => none

/-- The reassignability requested by a declaration combination. -/
def VarType.reassignable : VarType → Bool
  | .ConstConst => false
  | .ConstVar => false
  | .VarConst => true
  | .VarVar => true

/-- The shared-ness requested by a declaration combination. -/
def VarType.shared : VarType → Bool
  | .ConstConst => false
  | .VarConst => false
  | .ConstVar => true
  | .VarVar => true

/-- Translated from `types/pointer.rs` (`Pointer::convert`): retag a
handle to a requested combination, reusing the storage when the
shared-ness matches and copying the current value into fresh storage when
it differs.  Allocation of a fresh `Rc<RefCell<_>>` is explicit here, so
the function also returns the heap. -/
def Pointer.convert (p : Pointer) (vt : VarType) (h : Heap) : Pointer × Heap :=
  match p, vt with
  | .constConst v, .ConstConst => (.constConst v, h)
  | .constConst v, .VarConst => (.varConst v, h)
  | .varConst v, .ConstConst => (.constConst v, h)
  | .varConst v, .VarConst => (.varConst v, h)
  | .constVar a, .ConstVar => (.constVar a, h)
  | .constVar a, .VarVar => (.varVar a, h)
  | .varVar a, .ConstVar => (.constVar a, h)
  | .varVar a, .VarVar => (.varVar a, h)
  | .constConst v, .ConstVar => (.constVar h.cells.length, h.pushCell v)
  | .constConst v, .VarVar => (.varVar h.cells.length, h.pushCell v)
  | .varConst v, .ConstVar => (.constVar h.cells.length, h.pushCell v)
  | .varConst v, .VarVar => (.varVar h.cells.length, h.pushCell v)
  | .constVar a, .ConstConst => (.constConst (h.getCell a), h)
  | .constVar a, .VarConst => (.varConst (h.getCell a), h)
  | .varVar a, .ConstConst => (.constConst (h.getCell a), h)
  | .varVar a, .VarConst => (.varConst (h.getCell a), h)

/-! ## Environment operations

`types/state.rs` is not among the sources under analysis; the following
operations are modelled from the spec's Environment contract: lookup
walks outward from the innermost frame, insertion targets the innermost
frame, deletion removes only from the innermost frame.  `State::get`
returns a `Pointer` (not a `Result`) at every call site in
`interpreter.rs`; for a name bound nowhere the model returns the
undefined Pointer held by the `State` (`state.undefined`, an owned-fixed
handle, `Pointer::from(Value::Undefined)` being `ConstConst`). -/

/-- The `State`'s cached undefined Pointer (`state.borrow().undefined`):
an owned-fixed handle to the undefined sentinel. -/
def undefinedPtr : Pointer := .constConst .undefined

/-- First binding for a name in one frame's mapping. -/
def lookupVar (vars : List (String × Pointer)) (name : String) : Option Pointer :=
  match vars with
  | [] => none
  | (k, p) :: rest => if k = name then some p else lookupVar rest name

/-- Insert-or-replace for one frame's mapping (`HashMap::insert`). -/
def insertVar (vars : List (String × Pointer)) (name : String) (p : Pointer) :
    List (String × Pointer) :=
  (name, p) :: vars.filter (fun kv => kv.1 ≠ name)

/-- Remove a name from one frame's mapping (`HashMap::remove`). -/
def removeVar (vars : List (String × Pointer)) (name : String) :
    List (String × Pointer) :=
  vars.filter (fun kv => kv.1 ≠ name)

/-- Walk the scope chain outward from frame `fi`, for at most `fuel`
steps (parents always point to earlier frames, so `h.frames.length`
steps always suffice). -/
def lookupChain (fuel : Nat) (h : Heap) (fi : Nat) (name : String) : Pointer :=
  match fuel with
  | 0 => undefinedPtr
  | fuel + 1 =>
    let fr := h.getFrame fi
    match lookupVar fr.vars name with
    | some p => p
    | none =>
      match fr.parent with
      | some pa => lookupChain fuel h pa name
      | none => undefinedPtr

/-- Modelled from the spec: `State::get` — outward lookup along the
chain, total, yielding the undefined Pointer on a miss. -/
def stateGet (h : Heap) (fi : Nat) (name : String) : Pointer :=
  lookupChain h.frames.length h fi name

/-- Modelled from the spec: `State::insert` — bind in the innermost
frame. -/
def stateInsert (h : Heap) (fi : Nat) (name : String) (p : Pointer) : Heap :=
  h.setFrame fi { h.getFrame fi with vars := insertVar (h.getFrame fi).vars name p }

/-- Modelled from the spec: `State::delete` — remove from the innermost
frame only. -/
def stateDelete (h : Heap) (fi : Nat) (name : String) : Heap :=
  h.setFrame fi { h.getFrame fi with vars := removeVar (h.getFrame fi).vars name }

/-! ## Object field operations (`HashMap<Value, Pointer>`) -/

/-- Lookup in an object's mapping by structural key equality (`HashMap::get`). -/
def lookupField (fields : List (Value × Pointer)) (key : Value) : Option Pointer :=
  match fields with
  | [] => none
  | (k, p) :: rest => if Value.beq k key then some p else lookupField rest key

/-- Insert-or-replace in an object's mapping (`HashMap::insert`). -/
def insertField (fields : List (Value × Pointer)) (key : Value) (p : Pointer) :
    List (Value × Pointer) :=
  (key, p) :: fields.filter (fun kv => ¬ Value.beq kv.1 key)

/-! ## Value operations

`types/value.rs` is not among the sources under analysis; the arithmetic,
stringification, truth-value and equality semantics below are modelled
from the spec (§3 and §4.2). -/

/-- Modelled from the spec: three-valued conjunction (Kleene). -/
def Boolean.and : Boolean → Boolean → Boolean
  | .False, _ => .False
  | _, .False => .False
  | .Maybe, _ => .Maybe
  | _, .Maybe => .Maybe
  | .True, .True => .True

/-- Modelled from the spec: three-valued disjunction (Kleene). -/
def Boolean.or : Boolean → Boolean → Boolean
  | .True, _ => .True
  | _, .True => .True
  | .Maybe, _ => .Maybe
  | _, .Maybe => .Maybe
  | .False, .False => .False

/-- Modelled from the spec: the display form of a value (`Display` in
`types/value.rs`); only its totality matters to the claims under
analysis. -/
def Value.display : Value → String
  | .number n => toString n
  | .string s => s
  | .boolean .True => "true"
  | .boolean .False => "false"
  | .boolean .Maybe => "maybe"
  | .object _ => "object"
  | .function _ _ => "function"
  | .keyword _ => "keyword"
  | .undefined => "undefined"

/-- Modelled from the spec: reduction of a value to the three-valued
truth domain (`Value::bool`); Booleans are themselves, emptiness-like
values are False. -/
def Value.bool : Value → Boolean
  | .boolean b => b
  | .number n => if n = 0 then .False else .True
  | .string s => if s = "" then .False else .True
  | .undefined => .False
  | _ => .True

/-- Modelled from the spec: `Value::eq` — the depth-parameterised
equality test behind the `==`/`===` operator family.  The spec fixes
only that it is an equality test over the two current values returning a
three-valued Boolean; it is modelled as structural value equality at
every depth. -/
def Value.eq (a b : Value) (depth : Nat) : Value :=
  let _ := depth
  .boolean (if Value.beq a b then .True else .False)

/-- Modelled from the spec: `Add` — numeric addition, or string
concatenation when either operand is a String. -/
def Value.add : Value → Value → Value
  | .number a, .number b => .number (a + b)
  | .string a, b => .string (a ++ b.display)
  | a, .string b => .string (a.display ++ b)
  | _, _ => .undefined

/-- Modelled from the spec: `Sub` — standard numeric semantics. -/
def Value.sub : Value → Value → Value
  | .number a, .number b => .number (a - b)
  | _, _ => .undefined

/-- Modelled from the spec: `Mul` — standard numeric semantics. -/
def Value.mul : Value → Value → Value
  | .number a, .number b => .number (a * b)
  | _, _ => .undefined

/-- Modelled from the spec: `Div` on values — normal division; only ever
reached with a nonzero divisor (the zero test lives in
`impl Div for Pointer`). -/
def Value.div : Value → Value → Value
  | .number a, .number b => .number (a / b)
  | _, _ => .undefined

/-- Modelled from the spec: `Mod` — standard numeric semantics. -/
def Value.mod : Value → Value → Value
  | .number a, .number b => if b = 0 then .undefined else .number (a - b * (a / b).floor)
  | _, _ => .undefined

/-- Modelled from the spec: arithmetic negation of a value. -/
def Value.neg : Value → Value
  | .number a => .number (-a)
  | _ => .undefined

/-- Modelled from the spec: the total order behind `<`, `<=`, `>`, `>=`
on Numbers and Strings; incomparable kinds are unordered (every strict
or non-strict comparison is false, as with Rust's `PartialOrd` returning
`None`). -/
def Value.compare : Value → Value → Option Ordering
  | .number a, .number b => some (cmp a b)
  | .string a, .string b => some (cmp a b)
  | _, _ => none

/-! ## Pointer operations

Translated from `types/pointer.rs` where that file defines them; the
remaining `Pointer` methods used by `interpreter.rs` (`assign`,
compound-assignment, `dot`, comparisons, negation, boolean combination)
live outside the sources under analysis and are modelled from the spec. -/

/-- Translated from `types/pointer.rs` (`impl PartialEq<Value> for
Pointer`): dereference, then compare values. -/
def Pointer.eqValue (p : Pointer) (v : Value) (h : Heap) : Bool :=
  Value.beq (p.cloneInner h) v

/-- Translated from `types/pointer.rs` (`Pointer::eq`): the
language-level equality operator — wrap `Value::eq` of the two
dereferenced values in an owned-fixed handle. -/
def Pointer.eq (p q : Pointer) (precision : Nat) (h : Heap) : Pointer :=
  .constConst (Value.eq (p.cloneInner h) (q.cloneInner h) precision)

/-- Translated from `types/pointer.rs` (`impl Add for Pointer`):
`Pointer::from` of the value-level result, i.e. an owned-fixed handle. -/
def Pointer.add (p q : Pointer) (h : Heap) : Pointer :=
  .constConst (Value.add (p.cloneInner h) (q.cloneInner h))

/-- Translated from `types/pointer.rs` (`impl Sub for Pointer`). -/
def Pointer.sub (p q : Pointer) (h : Heap) : Pointer :=
  .constConst (Value.sub (p.cloneInner h) (q.cloneInner h))

/-- Translated from `types/pointer.rs` (`impl Mul for Pointer`). -/
def Pointer.mul (p q : Pointer) (h : Heap) : Pointer :=
  .constConst (Value.mul (p.cloneInner h) (q.cloneInner h))

/-- Translated from `types/pointer.rs` (`impl Div for Pointer`): an
owned-fixed Undefined when the right operand equals Number 0, otherwise
normal division of the dereferenced values. -/
def Pointer.div (p q : Pointer) (h : Heap) : Pointer :=
  if q.eqValue (.number 0) h then .constConst .undefined
  else .constConst (Value.div (p.cloneInner h) (q.cloneInner h))

/-- Modelled from the spec: `%` on Pointers, by analogy with the
translated arithmetic handles. -/
def Pointer.mod (p q : Pointer) (h : Heap) : Pointer :=
  .constConst (Value.mod (p.cloneInner h) (q.cloneInner h))

/-- Modelled from the spec: arithmetic negation of a Pointer
(`impl Neg`), an owned-fixed handle on the negated value. -/
def Pointer.neg (p : Pointer) (h : Heap) : Pointer :=
  .constConst (Value.neg (p.cloneInner h))

/-- Modelled from the spec: three-valued boolean combination
(`impl BitAnd for Pointer`). -/
def Pointer.and (p q : Pointer) (h : Heap) : Pointer :=
  .constConst (.boolean (Boolean.and (p.cloneInner h).bool (q.cloneInner h).bool))

/-- Modelled from the spec: three-valued boolean combination
(`impl BitOr for Pointer`). -/
def Pointer.or (p q : Pointer) (h : Heap) : Pointer :=
  .constConst (.boolean (Boolean.or (p.cloneInner h).bool (q.cloneInner h).bool))

/-- Modelled from the spec: the comparison operators over the total
order on Numbers and Strings, false when unordered, wrapped as an
owned-fixed Boolean handle (`Pointer::from(bool)`). -/
def Pointer.cmpOp (p q : Pointer) (h : Heap) (keep : Ordering → Bool) : Pointer :=
  .constConst (.boolean (match (p.cloneInner h).compare (q.cloneInner h) with
    | some o => if keep o then .True else .False
    | none => .False))

/-- Modelled from the spec: `Pointer::assign`, the target of plain `=`
assignment — overwrite the left handle's target in place with the right
handle's current value; fails on a handle that is not reassignable.  An
owned-reassignable handle replaces only its own snapshot, which the
evaluator immediately discards (`interpret_operation` returns the
right-hand Pointer), so no heap change is observable for it. -/
def Pointer.assign (p q : Pointer) (h : Heap) : Except String Heap :=
  match p with
  | .varVar a => .ok (h.setCell a (q.cloneInner h))
  | .varConst _ => .ok h
  | .constConst _ => .error "Cannot assign to a constant"
  | .constVar _ => .error "Cannot assign to a constant"

/-- Modelled from the spec: write an arithmetic result back through the
left handle for the compound assignments (`+=` family): shared storage
is updated in the heap; owned storage replaces the local snapshot, the
updated handle being what the operation returns. -/
def Pointer.writeBack (p : Pointer) (v : Value) (h : Heap) : Pointer × Heap :=
  match p with
  | .varVar a => (.varVar a, h.setCell a v)
  | .constVar a => (.constVar a, h.setCell a v)
  | .varConst _ => (.varConst v, h)
  | .constConst _ => (.constConst v, h)

/-- Modelled from the spec: `Pointer::dot`, the non-auto-vivifying
member access — look the key up in an Object's mapping; fail if the left
value does not support member access or the key is missing. -/
def Pointer.dot (p : Pointer) (key : Value) (h : Heap) : Except String Pointer :=
  match p.cloneInner h with
  | .object fields =>
    match lookupField fields key with
    | some v => .ok v
    | none => .error ("Object has no member " ++ key.display)
  | other => .error ("Cannot access a member of " ++ other.display)

/-! ## The evaluator (`src/interpreter.rs`)

Failures travel on two channels, as in the Rust program: `Fault.err` is
the recoverable `SResult` error string, `Fault.fatal` is a Rust panic
(the panicking macros, stack exhaustion), which unwinds past the evaluator
instead of being caught by it.  Fuel stands for the host call stack;
running out of fuel is the stack-exhaustion panic. -/

/-- The two failure channels of the evaluator. -/
inductive Fault where
  | err (msg : String)
  | fatal (msg : String)
deriving DecidableEq

/-- Result of one evaluation step: a value or a propagated fault. -/
abbrev Res (α : Type) := Except Fault α

/-- Whether a result is a recoverable (`SResult`) error. -/
def Res.isRecoverableErr : Res (Pointer × Heap) → Bool
  | .error (.err _) => true
  | _ => false

/-- Translated from `interpreter.rs` (`interpret_operation`, the member
access special case): the left operand has already evaluated to an
Object and the right operand is the bare identifier `i`.  Search the
object's mapping for the key; return the stored Pointer when present;
otherwise create a fresh shared cell holding Undefined
(`state.borrow().undefined.convert(VarType::VarVar)`), insert the new
handle into the object under the key and return it.  `as_var` on a
shared handle is its own cell; on an owned handle it is a fresh
temporary cell that the caller drops, so for an owned left operand the
insertion is unobservable and only the created handle survives. -/
def dotVivify (lhsEval : Pointer) (i : String) (h : Heap) : Res (Pointer × Heap) :=
  match lhsEval with
  | .constVar a | .varVar a =>
    match h.getCell a with
    | .object fields =>
      match lookupField fields (.string i) with
      | some val => .ok (val, h)
      | none =>
        let ptr := Pointer.varVar h.cells.length
        let h1 := h.pushCell .undefined
        .ok (ptr, h1.setCell a (.object (insertField fields (.string i) ptr)))
    | _ => .error (.fatal "Internal Compiler Error")
  | .constConst v | .varConst v =>
    match v with
    | .object fields =>
      match lookupField fields (.string i) with
      | some val => .ok (val, h)
      | none => .ok (Pointer.varVar h.cells.length, h.pushCell .undefined)
    | _ => .error (.fatal "Internal Compiler Error")

/-- Translated from `interpreter.rs` (`Keyword::Function` argument
collection): every parameter node must be a bare identifier; anything
else is the recoverable error `Invalid parameter name`. -/
def extractParams : List Syntax → Res (List String)
  | [] => .ok []
  | .ident s :: rest =>
    match extractParams rest with
    | .ok ss => .ok (s :: ss)
    | .error e => .error e
  | _ :: _ => .error (.err "Invalid parameter name")

/-- Translated from `interpreter.rs` (the `Keyword::Delete` arm): a
single bare-identifier argument removes that binding from the innermost
frame; any other argument shape silently no-ops; Undefined is always
returned. -/
def interpretDelete (args : List Syntax) (st : Nat) (h : Heap) :
    Res (Pointer × Heap) :=
  match args with
  | [.ident key] => .ok (undefinedPtr, stateDelete h st key)
  | _ => .ok (undefinedPtr, h)

/-- Translated from `interpreter.rs` (the `Keyword::Function` arm):
exactly three arguments — a bare identifier, a parameter list (a block
of identifiers or a single node), and a body; non-identifier parameters
are a recoverable error; on success the Function value is bound to the
name in the current environment and Undefined returned. -/
def interpretDefine (args : List Syntax) (st : Nat) (h : Heap) :
    Res (Pointer × Heap) :=
  match args with
  | [.ident name, paramSpec, body] =>
    let paramSyns := match paramSpec with
      | .block ps => ps
      | other => [other]
    match extractParams paramSyns with
    | .ok params =>
      .ok (undefinedPtr, stateInsert h st name (.constConst (.function params body)))
    | .error e => .error e
  | _ => .error (.err "Invalid arguments for `function`; expected name, args, and body")

/-- Translated from `types/pointer.rs` (`impl Display for Pointer`):
dereference, then display the value. -/
def Pointer.display (p : Pointer) (h : Heap) : String :=
  (p.cloneInner h).display

/-- Translated from `interpreter.rs` (the `Syntax::String` arm):
concatenate literal segments with the stringified current value of each
interpolated identifier, looked up in the current environment. -/
def interpSegments (h : Heap) (st : Nat) : List StringSegment → String
  | [] => ""
  | .lit s :: rest => s ++ interpSegments h st rest
  | .ident i :: rest => (stateGet h st i).display h ++ interpSegments h st rest

mutual
/-- Translated from `interpreter.rs` (`inner_interpret`): the recursive
dispatcher over syntax-tree node kinds.  `st` is the current frame, `h`
the heap of cells and frames; the debug side channel of `Statement` is
dropped (it does not affect evaluation). -/
def innerInterpret : Nat → Syntax → Nat → Heap → Res (Pointer × Heap)
  | 0, _, _, _ => .error (.fatal "stack overflow")
  | fuel + 1, stx, st, h =>
    match stx with
    | .statement false content _ =>
      match innerInterpret fuel content st h with
      | .ok (_, h1) => .ok (undefinedPtr, h1)
      | .error e => .error e
    | .statement true content _ => innerInterpret fuel content st h
    | .negate content =>
      match innerInterpret fuel content st h with
      | .ok (p, h1) => .ok (p.neg h1, h1)
      | .error e => .error e
    | .operation lhs op rhs => interpretOperation fuel lhs op rhs st h
    | .block statements =>
      interpBlockList fuel statements h.frames.length (h.pushFrame ⟨[], some st⟩)
    | .declare vt name value =>
      match innerInterpret fuel value st h with
      | .ok (p, h1) =>
        match p.convert vt h1 with
        | (p1, h2) => .ok (undefinedPtr, stateInsert h2 st name p1)
      | .error e => .error e
    | .interpolate segments =>
      .ok (.constConst (.string (interpSegments h st segments)), h)
    | .call func args => interpretFunction fuel (stateGet h st func) args st h
    | .ident name => .ok (stateGet h st name, h)
    | .function params body => .ok (.constConst (.function params body), h)

/-- Translated from `interpreter.rs` (the `Syntax::Block` arm): all
statements but the last are evaluated for effect in the new child frame,
their results discarded; the last statement's result is returned; an
empty block yields Undefined. -/
def interpBlockList : Nat → List Syntax → Nat → Heap → Res (Pointer × Heap)
  | _, [], _, h => .ok (undefinedPtr, h)
  | 0, _ :: _, _, _ => .error (.fatal "stack overflow")
  | fuel + 1, [last], st, h => innerInterpret fuel last st h
  | fuel + 1, s :: rest, st, h =>
    match innerInterpret fuel s st h with
    | .ok (_, h1) => interpBlockList fuel rest st h1
    | .error e => .error e

/-- Translated from `interpreter.rs` (`interpret_operation`, entry):
evaluate the left operand first; when its value is an Object, the
operator is member access and the right operand is a bare identifier,
auto-vivify instead of evaluating the right operand. -/
def interpretOperation : Nat → Syntax → Operation → Syntax → Nat → Heap →
    Res (Pointer × Heap)
  | 0, _, _, _, _, _ => .error (.fatal "stack overflow")
  | fuel + 1, lhs, op, rhs, st, h =>
    match innerInterpret fuel lhs st h with
    | .error e => .error e
    | .ok (lhsEval, h1) =>
      match op with
      | .Dot =>
        match rhs with
        | .ident i =>
          match lhsEval.cloneInner h1 with
          | .object _ => dotVivify lhsEval i h1
          | _ => interpretOperationRhs fuel lhsEval .Dot (.ident i) st h1
        | rhs => interpretOperationRhs fuel lhsEval .Dot rhs st h1
      | op => interpretOperationRhs fuel lhsEval op rhs st h1

/-- Translated from `interpreter.rs` (`interpret_operation`, general
dispatch): evaluate the right operand, then apply the operator. -/
def interpretOperationRhs : Nat → Pointer → Operation → Syntax → Nat → Heap →
    Res (Pointer × Heap)
  | 0, _, _, _, _, _ => .error (.fatal "stack overflow")
  | fuel + 1, lhsEval, op, rhs, st, h =>
    match innerInterpret fuel rhs st h with
    | .error e => .error e
    | .ok (rhsEval, h2) =>
      match op with
      | .Equal 1 =>
        match lhsEval.assign rhsEval h2 with
        | .ok h3 => .ok (rhsEval, h3)
        | .error msg => .error (.err msg)
      | .Equal precision => .ok (lhsEval.eq rhsEval (precision - 1) h2, h2)
      | .Add => .ok (lhsEval.add rhsEval h2, h2)
      | .Sub => .ok (lhsEval.sub rhsEval h2, h2)
      | .Mul => .ok (lhsEval.mul rhsEval h2, h2)
      | .Div => .ok (lhsEval.div rhsEval h2, h2)
      | .Mod => .ok (lhsEval.mod rhsEval h2, h2)
      | .Dot =>
        match lhsEval.dot (rhsEval.cloneInner h2) h2 with
        | .ok p => .ok (p, h2)
        | .error msg => .error (.err msg)
      | .And => .ok (lhsEval.and rhsEval h2, h2)
      | .Or => .ok (lhsEval.or rhsEval h2, h2)
      | .AddEq =>
        match lhsEval.writeBack (Value.add (lhsEval.cloneInner h2) (rhsEval.cloneInner h2)) h2 with
        | (p1, h3) => .ok (p1, h3)
      | .SubEq =>
        match lhsEval.writeBack (Value.sub (lhsEval.cloneInner h2) (rhsEval.cloneInner h2)) h2 with
        | (p1, h3) => .ok (p1, h3)
      | .MulEq =>
        match lhsEval.writeBack (Value.mul (lhsEval.cloneInner h2) (rhsEval.cloneInner h2)) h2 with
        | (p1, h3) => .ok (p1, h3)
      | .DivEq =>
        match lhsEval.writeBack ((lhsEval.div rhsEval h2).cloneInner h2) h2 with
        | (p1, h3) => .ok (p1, h3)
      | .ModEq =>
        match lhsEval.writeBack (Value.mod (lhsEval.cloneInner h2) (rhsEval.cloneInner h2)) h2 with
        | (p1, h3) => .ok (p1, h3)
      | .Lt => .ok (lhsEval.cmpOp rhsEval h2 (fun o => o == Ordering.lt), h2)
      | .Le => .ok (lhsEval.cmpOp rhsEval h2 (fun o => o == Ordering.lt || o == Ordering.eq), h2)
      | .Gt => .ok (lhsEval.cmpOp rhsEval h2 (fun o => o == Ordering.gt), h2)
      | .Ge => .ok (lhsEval.cmpOp rhsEval h2 (fun o => o == Ordering.gt || o == Ordering.eq), h2)
      | .Arrow => .error (.fatal "not yet implemented")

/-- Translated from `interpreter.rs` (`interpret_function`): dispatch on
the callee's current value — built-in keywords, object-as-callable via a
`call` member with an implicit `self` binding, user functions, and the
`not a function` failure.  Each branch's body is split into its own
function below; the extra fuel layer each split consumes is bookkeeping
of the model, not of the program. -/
def interpretFunction : Nat → Pointer → List Syntax → Nat → Heap →
    Res (Pointer × Heap)
  | 0, _, _, _, _ => .error (.fatal "stack overflow")
  | fuel + 1, func, args, st, h =>
    match func.cloneInner h with
    | .keyword .If => interpretIf fuel args st h
    | .keyword .Delete => interpretDelete args st h
    | .keyword .Function => interpretDefine args st h
    | .keyword .Eval => interpretEvalKw fuel args st h
    | .object fields => interpretObjectCall fuel func fields args st h
    | .function params body => interpretUserFn fuel params body args st h
    | _ => .error (.err "Not a function")

/-- Translated from `interpreter.rs` (the `Keyword::If` arm): at least
two arguments (condition, then-body) are required; the condition is
evaluated and reduced to a three-valued Boolean; True selects the
then-body, Maybe with a fourth argument present selects that maybe-body,
otherwise the third argument if present, else Undefined.
`rest[1]?`/`rest[0]?` are `args.get(3)`/`args.get(2)` of the Rust. -/
def interpretIf : Nat → List Syntax → Nat → Heap → Res (Pointer × Heap)
  | 0, _, _, _ => .error (.fatal "stack overflow")
  | fuel + 1, condition :: body :: rest, st, h =>
    match innerInterpret fuel condition st h with
    | .error e => .error e
    | .ok (c, h1) =>
      let b := (c.cloneInner h1).bool
      if b = .True then innerInterpret fuel body st h1
      else
        match b, rest[1]? with
        | .Maybe, some maybeBody => innerInterpret fuel maybeBody st h1
        | _, _ =>
          match rest[0]? with
          | some elseStatement => innerInterpret fuel elseStatement st h1
          | none => .ok (undefinedPtr, h1)
  | _ + 1, _, _, _ =>
    .error (.err "If statement requires two arguments: condition and body")

/-- Translated from `interpreter.rs` (the `Keyword::Eval` arm): exactly
one argument; evaluate and stringify it, then re-enter the external
lexer and parser — which are outside the sources under analysis, so the
model reports that boundary as a fatal fault after faithfully performing
the shape check and the argument evaluation. -/
def interpretEvalKw : Nat → List Syntax → Nat → Heap → Res (Pointer × Heap)
  | 0, _, _, _ => .error (.fatal "stack overflow")
  | fuel + 1, [body], st, h =>
    match innerInterpret fuel body st h with
    | .error e => .error e
    | .ok _ =>
      .error (.fatal "external lexer and parser are outside the sources under analysis")
  | _ + 1, _, _, _ => .error (.err "You can only `eval` one thing at a time")

/-- Translated from `interpreter.rs` (the `Value::Object` arm): the
object must expose a `call` member; a child environment binding `self`
to the object itself is created and the invocation protocol re-entered
with the `call` member as callee. -/
def interpretObjectCall : Nat → Pointer → List (Value × Pointer) → List Syntax →
    Nat → Heap → Res (Pointer × Heap)
  | 0, _, _, _, _, _ => .error (.fatal "stack overflow")
  | fuel + 1, func, fields, args, st, h =>
    match lookupField fields (.string "call") with
    | none => .error (.err "Object is not a function")
    | some callMember =>
      interpretFunction fuel callMember args h.frames.length
        (h.pushFrame ⟨insertVar [] "self" func, some st⟩)

/-- Translated from `interpreter.rs` (the `Value::Function` arm): bind
the declared parameters to the argument expressions evaluated in the
calling environment, then evaluate the body in a new child frame whose
parent is the calling environment. -/
def interpretUserFn : Nat → List String → Syntax → List Syntax → Nat → Heap →
    Res (Pointer × Heap)
  | 0, _, _, _, _, _ => .error (.fatal "stack overflow")
  | fuel + 1, params, body, args, st, h =>
    match bindArgs fuel params args st h [] with
    | .error e => .error e
    | .ok (vars, h1) =>
      innerInterpret fuel body h1.frames.length (h1.pushFrame ⟨vars, some st⟩)

/-- Translated from `interpreter.rs` (the `Value::Function` arm's
binding loop): for each declared parameter in order, evaluate the
corresponding argument expression in the caller's environment, or bind
Undefined when no argument was supplied; `acc` is the child frame's
mapping being built. -/
def bindArgs : Nat → List String → List Syntax → Nat → Heap →
    List (String × Pointer) → Res (List (String × Pointer) × Heap)
  | _, [], _, _, h, acc => .ok (acc, h)
  | 0, _ :: _, _, _, _, _ => .error (.fatal "stack overflow")
  | fuel + 1, p :: ps, [], st, h, acc =>
    bindArgs fuel ps [] st h (insertVar acc p undefinedPtr)
  | fuel + 1, p :: ps, a :: rest, st, h, acc =>
    match innerInterpret fuel a st h with
    | .error e => .error e
    | .ok (v, h1) => bindArgs fuel ps rest st h1 (insertVar acc p v)
end

/-- Translated from `interpreter.rs` (`interpret`): evaluate a program
in a fresh root environment.  `State::new` is modelled from the spec as
an empty root frame; the built-in keywords are reachable as values, and
their binding names live in the missing `state.rs`, so no name → keyword
bindings are assumed here. -/
def interpret (fuel : Nat) (src : Syntax) : Res (Pointer × Heap) :=
  innerInterpret fuel src 0 ⟨[], [⟨[], none⟩]⟩

/-! ## Heap and environment facts used by the claim theorems -/

theorem Heap.getCell_lt_of_object {h : Heap} {a : Nat} {fields : List (Value × Pointer)}
    (hv : h.getCell a = .object fields) : a < h.cells.length := by
  by_contra hge
  rw [Heap.getCell, List.getD_eq_default _ _ (Nat.le_of_not_lt hge)] at hv
  exact Value.noConfusion hv

theorem Heap.getCell_set_self {h : Heap} {a : Nat} (v : Value)
    (ha : a < h.cells.length) : (h.setCell a v).getCell a = v := by
  rw [Heap.setCell, Heap.getCell]
  simp only [List.getD_eq_getD_get?, List.get?_eq_getElem?, List.getElem?_set_eq_of_lt _ ha]
  rfl

theorem Heap.getCell_set_ne {h : Heap} {a b : Nat} (v : Value) (hne : b ≠ a) :
    (h.setCell a v).getCell b = h.getCell b := by
  rw [Heap.setCell, Heap.getCell, Heap.getCell]
  simp only [List.getD_eq_getD_get?, List.get?_eq_getElem?]
  rw [List.getElem?_set_ne (fun hc => hne hc.symm)]

theorem Heap.getCell_push_self (h : Heap) (v : Value) :
    (h.pushCell v).getCell h.cells.length = v := by
  rw [Heap.pushCell, Heap.getCell]
  simp [List.getD_append_right h.cells [v] _ _ (Nat.le_refl _)]

theorem Heap.getCell_push_lt {h : Heap} {a : Nat} (v : Value)
    (ha : a < h.cells.length) : (h.pushCell v).getCell a = h.getCell a :=
  List.getD_append _ _ _ _ ha

theorem lookupChain_congr {h h' : Heap} (hf : h.frames = h'.frames) :
    ∀ (fuel fi : Nat) (name : String),
      lookupChain fuel h fi name = lookupChain fuel h' fi name := by
  intro fuel
  induction fuel with
  | zero => intro fi name; rfl
  | succ n ih =>
    intro fi name
    rw [lookupChain, lookupChain, Heap.getFrame, Heap.getFrame, hf]
    cases lookupVar ((h'.frames.getD fi ⟨[], none⟩)).vars name with
    | some p => rfl
    | none =>
      cases (h'.frames.getD fi ⟨[], none⟩).parent with
      | some pa => exact ih pa name
      | none => rfl

theorem stateGet_congr {h h' : Heap} (hf : h.frames = h'.frames)
    (fi : Nat) (name : String) : stateGet h fi name = stateGet h' fi name := by
  rw [stateGet, stateGet, hf, lookupChain_congr hf]

theorem lookupField_insert_self (fields : List (Value × Pointer)) (s : String)
    (p : Pointer) :
    lookupField (insertField fields (.string s) p) (.string s) = some p := by
  simp [insertField, lookupField, Value.beq]

/-! ## The claims -/

/-- C7: for every Pointer and every target reassignable/shared
combination, `convert` yields a handle carrying exactly the requested
flags; it reuses the existing storage exactly when the shared-ness of
source and target agree (same cell address for shared → shared, same
owned value and no allocation for owned → owned), and duplicates the
current value into fresh storage when they differ (a fresh cell holding
the owned value for owned → shared, an owned snapshot of the cell's
current value for shared → owned).  Stated as the flag law plus the
sixteen defining equations, one per source/target combination. -/
theorem convert_requested_flags_and_storage_reuse :
    (∀ (p : Pointer) (vt : VarType) (h : Heap),
      (p.convert vt h).1.isReassignable = vt.reassignable ∧
      (p.convert vt h).1.isShared = vt.shared) ∧
    (∀ (v : Value) (h : Heap),
      (Pointer.constConst v).convert .ConstConst h = (.constConst v, h) ∧
      (Pointer.constConst v).convert .VarConst h = (.varConst v, h) ∧
      (Pointer.varConst v).convert .ConstConst h = (.constConst v, h) ∧
      (Pointer.varConst v).convert .VarConst h = (.varConst v, h) ∧
      (Pointer.constConst v).convert .ConstVar h =
        (.constVar h.cells.length, h.pushCell v) ∧
      (Pointer.constConst v).convert .VarVar h =
        (.varVar h.cells.length, h.pushCell v) ∧
      (Pointer.varConst v).convert .ConstVar h =
        (.constVar h.cells.length, h.pushCell v) ∧
      (Pointer.varConst v).convert .VarVar h =
        (.varVar h.cells.length, h.pushCell v)) ∧
    (∀ (a : Nat) (h : Heap),
      (Pointer.constVar a).convert .ConstVar h = (.constVar a, h) ∧
      (Pointer.constVar a).convert .VarVar h = (.varVar a, h) ∧
      (Pointer.varVar a).convert .ConstVar h = (.constVar a, h) ∧
      (Pointer.varVar a).convert .VarVar h = (.varVar a, h) ∧
      (Pointer.constVar a).convert .ConstConst h = (.constConst (h.getCell a), h) ∧
      (Pointer.constVar a).convert .VarConst h = (.varConst (h.getCell a), h) ∧
      (Pointer.varVar a).convert .ConstConst h = (.constConst (h.getCell a), h) ∧
      (Pointer.varVar a).convert .VarConst h = (.varConst (h.getCell a), h)) := by
  refine ⟨fun p vt h => ?_, fun v h => ?_, fun a h => ?_⟩
  · cases p <;> cases vt <;>
      simp [Pointer.convert, Pointer.isReassignable, Pointer.isShared,
        VarType.reassignable, VarType.shared]
  · exact ⟨rfl, rfl, rfl, rfl, rfl, rfl, rfl, rfl⟩
  · exact ⟨rfl, rfl, rfl, rfl, rfl, rfl, rfl, rfl⟩

/-- C8: the language-level equality `Pointer::eq` and the value
comparison `PartialEq<Value>` first dereference both handles and then
compare the pointed-to Values, so replacing either handle by any other
handle with the same current value — whatever its reassignable/shared
combination or cell identity — never changes the outcome; and the test
succeeds exactly when the dereferenced Values are equal. -/
theorem pointer_eq_compares_values_not_handles :
    (∀ (h : Heap) (p q : Pointer) (d : Nat),
      p.eq q d h = .constConst (Value.eq (p.cloneInner h) (q.cloneInner h) d)) ∧
    (∀ (h : Heap) (p p' q q' : Pointer) (d : Nat),
      p.cloneInner h = p'.cloneInner h → q.cloneInner h = q'.cloneInner h →
      p.eq q d h = p'.eq q' d h) ∧
    (∀ (h : Heap) (p q : Pointer) (d : Nat),
      p.eq q d h = .constConst (.boolean .True) ↔
        Value.beq (p.cloneInner h) (q.cloneInner h) = true) ∧
    (∀ (h : Heap) (p : Pointer) (v : Value),
      p.eqValue v h = Value.beq (p.cloneInner h) v) ∧
    (∀ (h : Heap) (p p' : Pointer) (v : Value),
      p.cloneInner h = p'.cloneInner h → p.eqValue v h = p'.eqValue v h) := by
  refine ⟨fun h p q d => rfl, fun h p p' q q' d hp hq => ?_,
    fun h p q d => ?_, fun h p v => rfl, fun h p p' v hp => ?_⟩
  · rw [Pointer.eq, Pointer.eq, hp, hq]
  · rw [Pointer.eq, Value.eq]
    cases hb : Value.beq (p.cloneInner h) (q.cloneInner h) <;> simp [hb]
  · rw [Pointer.eqValue, Pointer.eqValue, hp]

/-- C8 witness: retagging both handles of an equality test (an owned
snapshot of Number 1 against a shared cell holding Number 1) leaves the
result unchanged, at a concrete heap. -/
theorem pointer_eq_compares_values_not_handles_witness :
    Pointer.eq (.constConst (.number 1)) (.constConst (.number 1)) 1
      ⟨[.number 1], []⟩ =
    Pointer.eq (.varVar 0) (.constVar 0) 1 ⟨[.number 1], []⟩ :=
  pointer_eq_compares_values_not_handles.2.1 ⟨[.number 1], []⟩
    (.constConst (.number 1)) (.varVar 0) (.constConst (.number 1)) (.constVar 0) 1
    (by simp [Pointer.cloneInner, Heap.getCell])
    (by simp [Pointer.cloneInner, Heap.getCell])

/-- C5: division of a Number by a numerically zero Number yields an
owned-fixed Undefined — no fault and no infinity (the model's numbers
have none; the code path returns a value, not an error) — and a nonzero
divisor performs normal numeric division; stated both for
`impl Div for Pointer` and for the evaluator's `Div` operation path. -/
theorem div_by_zero_is_undefined :
    (∀ (h : Heap) (p q : Pointer) (a b : Rat),
      p.cloneInner h = .number a → q.cloneInner h = .number b →
      (b = 0 → p.div q h = .constConst .undefined) ∧
      (b ≠ 0 → p.div q h = .constConst (.number (a / b)))) ∧
    (∀ (n st : Nat) (lhs rhs : Syntax) (h h1 h2 : Heap) (p q : Pointer) (a b : Rat),
      innerInterpret (n + 1) lhs st h = .ok (p, h1) →
      innerInterpret n rhs st h1 = .ok (q, h2) →
      p.cloneInner h2 = .number a → q.cloneInner h2 = .number b →
      (b = 0 → interpretOperation (n + 2) lhs .Div rhs st h =
        .ok (.constConst .undefined, h2)) ∧
      (b ≠ 0 → interpretOperation (n + 2) lhs .Div rhs st h =
        .ok (.constConst (.number (a / b)), h2))) := by
  have core : ∀ (h : Heap) (p q : Pointer) (a b : Rat),
      p.cloneInner h = .number a → q.cloneInner h = .number b →
      (b = 0 → p.div q h = .constConst .undefined) ∧
      (b ≠ 0 → p.div q h = .constConst (.number (a / b))) := by
    intro h p q a b hp hq
    constructor
    · intro hb
      have hc : Value.beq (q.cloneInner h) (Value.number 0) = true := by
        rw [hq, hb]; simp [Value.beq]
      rw [Pointer.div, Pointer.eqValue, hc]
      simp
    · intro hb
      have hc : Value.beq (q.cloneInner h) (Value.number 0) = false := by
        rw [hq]; simpa [Value.beq] using hb
      rw [Pointer.div, Pointer.eqValue, hc]
      simp [Value.div, hp, hq]
  refine ⟨core, ?_⟩
  intro n st lhs rhs h h1 h2 p q a b hlhs hrhs hp hq
  have hop : interpretOperation (n + 2) lhs .Div rhs st h = .ok (p.div q h2, h2) := by
    simp only [show n + 2 = (n + 1) + 1 from rfl, interpretOperation, hlhs,
      interpretOperationRhs, hrhs]
  obtain ⟨h0, hn0⟩ := core h2 p q a b hp hq
  exact ⟨fun hb => by rw [hop, h0 hb], fun hb => by rw [hop, hn0 hb]⟩

/-- C5 witness: at a concrete heap, an owned Number 6 divided by a
shared cell holding Number 0 is Undefined, and divided by an owned
Number 2 is Number 3, both through the evaluator's `Div` path. -/
theorem div_by_zero_is_undefined_witness :
    interpretOperation 3 (.ident "x") .Div (.ident "z") 0
      ⟨[.number 0], [⟨[("x", .constConst (.number 6)), ("z", .varVar 0)], none⟩]⟩ =
      .ok (.constConst .undefined,
        ⟨[.number 0], [⟨[("x", .constConst (.number 6)), ("z", .varVar 0)], none⟩]⟩) ∧
    Pointer.div (.constConst (.number 6)) (.constConst (.number 2))
      ⟨[], []⟩ = .constConst (.number 3) := by
  constructor
  · exact (div_by_zero_is_undefined.2 1 0 (.ident "x") (.ident "z")
      ⟨[.number 0], [⟨[("x", .constConst (.number 6)), ("z", .varVar 0)], none⟩]⟩
      ⟨[.number 0], [⟨[("x", .constConst (.number 6)), ("z", .varVar 0)], none⟩]⟩
      ⟨[.number 0], [⟨[("x", .constConst (.number 6)), ("z", .varVar 0)], none⟩]⟩
      (.constConst (.number 6)) (.varVar 0) 6 0
      (by simp [innerInterpret, stateGet, lookupChain, Heap.getFrame, lookupVar])
      (by simp [innerInterpret, stateGet, lookupChain, Heap.getFrame, lookupVar])
      rfl (by simp [Pointer.cloneInner, Heap.getCell])).1 rfl
  · have := ((div_by_zero_is_undefined.1 ⟨[], []⟩
      (.constConst (.number 6)) (.constConst (.number 2)) 6 2 rfl rfl).2 (by norm_num))
    rw [this]
    norm_num

/-! ## Facts about the member-access special case -/

theorem innerInterpret_ident (n st : Nat) (name : String) (h : Heap) :
    innerInterpret (n + 1) (.ident name) st h = .ok (stateGet h st name, h) := by
  simp [innerInterpret]

theorem interpretOperation_dot_ident {n st : Nat} {lhs : Syntax} {i : String}
    {h h1 : Heap} {p : Pointer} {fields : List (Value × Pointer)}
    (hlhs : innerInterpret n lhs st h = .ok (p, h1))
    (hobj : p.cloneInner h1 = .object fields) :
    interpretOperation (n + 1) lhs .Dot (.ident i) st h = dotVivify p i h1 := by
  simp only [interpretOperation, hlhs, hobj]

theorem dotVivify_hit {h : Heap} {p : Pointer} {a : Nat}
    {fields : List (Value × Pointer)} {i : String} {q : Pointer}
    (hp : p.sharedAddr = some a) (hc : h.getCell a = .object fields)
    (hl : lookupField fields (.string i) = some q) :
    dotVivify p i h = .ok (q, h) := by
  cases p with
  | constConst v => exact absurd hp (by simp [Pointer.sharedAddr])
  | varConst v => exact absurd hp (by simp [Pointer.sharedAddr])
  | constVar b =>
    obtain rfl : b = a := by simpa [Pointer.sharedAddr] using hp
    simp only [dotVivify, hc, hl]
  | varVar b =>
    obtain rfl : b = a := by simpa [Pointer.sharedAddr] using hp
    simp only [dotVivify, hc, hl]

theorem dotVivify_miss {h : Heap} {p : Pointer} {a : Nat}
    {fields : List (Value × Pointer)} {i : String}
    (hp : p.sharedAddr = some a) (hc : h.getCell a = .object fields)
    (hl : lookupField fields (.string i) = none) :
    dotVivify p i h =
      .ok (.varVar h.cells.length,
        (h.pushCell .undefined).setCell a
          (.object (insertField fields (.string i) (.varVar h.cells.length)))) := by
  cases p with
  | constConst v => exact absurd hp (by simp [Pointer.sharedAddr])
  | varConst v => exact absurd hp (by simp [Pointer.sharedAddr])
  | constVar b =>
    obtain rfl : b = a := by simpa [Pointer.sharedAddr] using hp
    simp only [dotVivify, hc, hl]
  | varVar b =>
    obtain rfl : b = a := by simpa [Pointer.sharedAddr] using hp
    simp only [dotVivify, hc, hl]

theorem Pointer.cloneInner_of_sharedAddr {p : Pointer} {a : Nat} (h : Heap)
    (hp : p.sharedAddr = some a) : p.cloneInner h = h.getCell a := by
  cases p with
  | constConst v => exact absurd hp (by simp [Pointer.sharedAddr])
  | varConst v => exact absurd hp (by simp [Pointer.sharedAddr])
  | constVar b =>
    obtain rfl : b = a := by simpa [Pointer.sharedAddr] using hp
    rfl
  | varVar b =>
    obtain rfl : b = a := by simpa [Pointer.sharedAddr] using hp
    rfl

/-- C1 counterexample: on a fresh object bound as `o`, `o.k` creates and
returns a `varVar` handle — reassignable and shared, i.e.
shared-reassignable — whereas the claim asserts the created handle is
shared-fixed (not reassignable). -/
theorem dot_autoviv_counterexample :
    interpretOperation 2 (.ident "o") .Dot (.ident "k") 0
      ⟨[.object []], [⟨[("o", .varVar 0)], none⟩]⟩ =
      .ok (.varVar 1, ⟨[.object [(.string "k", .varVar 1)], .undefined],
        [⟨[("o", .varVar 0)], none⟩]⟩) ∧
    (Pointer.varVar 1).isReassignable = true ∧
    (Pointer.varVar 1).isShared = true := by
  refine ⟨?_, rfl, rfl⟩
  simp [interpretOperation, innerInterpret, dotVivify, stateGet, lookupChain,
    Heap.getFrame, lookupVar, Pointer.cloneInner, Heap.getCell, lookupField,
    insertField, Heap.pushCell, Heap.setCell, Value.beq]

/-- C1 (amended): when the left operand of a Dot evaluates to a shared
handle on an Object and the right operand is a bare identifier, a
present key returns the stored Pointer unchanged; an absent key creates
a shared-REASSIGNABLE (`VarVar`, not shared-fixed) Pointer to a fresh
Undefined cell, inserts it into the object under that key, and returns
it. -/
theorem dot_autovivifies_shared_reassignable
    (n st : Nat) (lhs : Syntax) (i : String) (h h1 : Heap) (p : Pointer)
    (a : Nat) (fields : List (Value × Pointer))
    (hlhs : innerInterpret n lhs st h = .ok (p, h1))
    (hp : p.sharedAddr = some a)
    (hobj : h1.getCell a = .object fields) :
    (∀ q, lookupField fields (.string i) = some q →
      interpretOperation (n + 1) lhs .Dot (.ident i) st h = .ok (q, h1)) ∧
    (lookupField fields (.string i) = none →
      interpretOperation (n + 1) lhs .Dot (.ident i) st h =
        .ok (.varVar h1.cells.length,
          (h1.pushCell .undefined).setCell a
            (.object (insertField fields (.string i) (.varVar h1.cells.length)))) ∧
      (Pointer.varVar h1.cells.length).isShared = true ∧
      (Pointer.varVar h1.cells.length).isReassignable = true ∧
      ((h1.pushCell .undefined).setCell a
          (.object (insertField fields (.string i) (.varVar h1.cells.length)))).getCell
        h1.cells.length = .undefined ∧
      lookupField (insertField fields (.string i) (.varVar h1.cells.length))
        (.string i) = some (.varVar h1.cells.length)) := by
  have hclone : p.cloneInner h1 = .object fields := by
    cases p with
    | constConst v => exact absurd hp (by simp [Pointer.sharedAddr])
    | varConst v => exact absurd hp (by simp [Pointer.sharedAddr])
    | constVar b =>
      obtain rfl : b = a := by simpa [Pointer.sharedAddr] using hp
      exact hobj
    | varVar b =>
      obtain rfl : b = a := by simpa [Pointer.sharedAddr] using hp
      exact hobj
  have halt : a < h1.cells.length := Heap.getCell_lt_of_object hobj
  constructor
  · intro q hl
    rw [interpretOperation_dot_ident hlhs hclone, dotVivify_hit hp hobj hl]
  · intro hl
    refine ⟨?_, rfl, rfl, ?_, lookupField_insert_self _ _ _⟩
    · rw [interpretOperation_dot_ident hlhs hclone, dotVivify_miss hp hobj hl]
    · rw [Heap.getCell_set_ne _ (Ne.symm (Nat.ne_of_lt halt))]
      exact Heap.getCell_push_self h1 .undefined

/-- C1 witness: the amended claim at the concrete scenario of the
counterexample — absent key `k` on the fresh object bound to `o`. -/
theorem dot_autovivifies_shared_reassignable_witness :
    interpretOperation 2 (.ident "o") .Dot (.ident "k") 0
      ⟨[.object []], [⟨[("o", .varVar 0)], none⟩]⟩ =
      .ok (.varVar 1,
        ((Heap.mk [.object []] [⟨[("o", .varVar 0)], none⟩]).pushCell .undefined).setCell 0
          (.object (insertField [] (.string "k") (.varVar 1)))) ∧
    (Pointer.varVar 1).isShared = true ∧
    (Pointer.varVar 1).isReassignable = true ∧
    (((Heap.mk [.object []] [⟨[("o", .varVar 0)], none⟩]).pushCell .undefined).setCell 0
        (.object (insertField [] (.string "k") (.varVar 1)))).getCell 1 = .undefined ∧
    lookupField (insertField [] (.string "k") (.varVar 1)) (.string "k") =
      some (.varVar 1) :=
  (dot_autovivifies_shared_reassignable 1 0 (.ident "o") "k"
      ⟨[.object []], [⟨[("o", .varVar 0)], none⟩]⟩
      ⟨[.object []], [⟨[("o", .varVar 0)], none⟩]⟩
      (.varVar 0) 0 []
      (by simp [innerInterpret, stateGet, lookupChain, Heap.getFrame, lookupVar])
      rfl rfl).2 rfl

/-- C2: on a fresh Object bound to `name` through shared storage, two
member accesses `name.k` with no intervening assignment return the same
shared handle: the first creates and returns the fresh `varVar` cell,
the second finds the key present and returns the very Pointer stored by
the first, leaving the heap untouched — so a mutation through the first
handle's cell is observed through the second. -/
theorem dot_autoviv_same_handle_twice
    (n m st : Nat) (name k : String) (h : Heap) (a : Nat)
    (fields : List (Value × Pointer))
    (hp : (stateGet h st name).sharedAddr = some a)
    (hobj : h.getCell a = .object fields)
    (hl : lookupField fields (.string k) = none) :
    interpretOperation (n + 2) (.ident name) .Dot (.ident k) st h =
      .ok (.varVar h.cells.length,
        (h.pushCell .undefined).setCell a
          (.object (insertField fields (.string k) (.varVar h.cells.length)))) ∧
    interpretOperation (m + 2) (.ident name) .Dot (.ident k) st
      ((h.pushCell .undefined).setCell a
        (.object (insertField fields (.string k) (.varVar h.cells.length)))) =
      .ok (.varVar h.cells.length,
        (h.pushCell .undefined).setCell a
          (.object (insertField fields (.string k) (.varVar h.cells.length)))) ∧
    (Pointer.varVar h.cells.length).isShared = true := by
  have halt : a < h.cells.length := Heap.getCell_lt_of_object hobj
  have hclone : (stateGet h st name).cloneInner h = .object fields := by
    rw [Pointer.cloneInner_of_sharedAddr h hp]; exact hobj
  refine ⟨?_, ?_, rfl⟩
  · rw [show n + 2 = (n + 1) + 1 from rfl,
      interpretOperation_dot_ident (innerInterpret_ident n st name h) hclone,
      dotVivify_miss hp hobj hl]
  · set h2 := (h.pushCell Value.undefined).setCell a
      (.object (insertField fields (.string k) (.varVar h.cells.length))) with hh2
    have hframes : h2.frames = h.frames := rfl
    have hget2 : stateGet h2 st name = stateGet h st name := stateGet_congr hframes st name
    have hp2 : (stateGet h2 st name).sharedAddr = some a := by rw [hget2]; exact hp
    have halt2 : a < h2.cells.length := by
      have : h2.cells.length = h.cells.length + 1 := by
        simp [hh2, Heap.setCell, Heap.pushCell]
      omega
    have hobj2 : h2.getCell a =
        .object (insertField fields (.string k) (.varVar h.cells.length)) := by
      rw [hh2]
      exact Heap.getCell_set_self _ (by simpa [Heap.pushCell] using Nat.lt_succ_of_lt halt)
    have hclone2 : (stateGet h2 st name).cloneInner h2 =
        .object (insertField fields (.string k) (.varVar h.cells.length)) := by
      rw [hget2, Pointer.cloneInner_of_sharedAddr h2 hp]; exact hobj2
    rw [show m + 2 = (m + 1) + 1 from rfl,
      interpretOperation_dot_ident (innerInterpret_ident m st name h2) hclone2,
      dotVivify_hit hp2 hobj2 (lookupField_insert_self fields k (.varVar h.cells.length))]

/-- C2 witness: the concrete fresh object bound to `o`; both accesses to
`o.k` return the handle `varVar 1` and the heap after the first access. -/
theorem dot_autoviv_same_handle_twice_witness :
    interpretOperation 2 (.ident "o") .Dot (.ident "k") 0
      ⟨[.object []], [⟨[("o", .varVar 0)], none⟩]⟩ =
      .ok (.varVar 1,
        ((Heap.mk [.object []] [⟨[("o", .varVar 0)], none⟩]).pushCell .undefined).setCell 0
          (.object (insertField [] (.string "k") (.varVar 1)))) ∧
    interpretOperation 2 (.ident "o") .Dot (.ident "k") 0
      (((Heap.mk [.object []] [⟨[("o", .varVar 0)], none⟩]).pushCell .undefined).setCell 0
        (.object (insertField [] (.string "k") (.varVar 1)))) =
      .ok (.varVar 1,
        ((Heap.mk [.object []] [⟨[("o", .varVar 0)], none⟩]).pushCell .undefined).setCell 0
          (.object (insertField [] (.string "k") (.varVar 1)))) ∧
    (Pointer.varVar 1).isShared = true :=
  dot_autoviv_same_handle_twice 0 0 0 "o" "k"
    ⟨[.object []], [⟨[("o", .varVar 0)], none⟩]⟩ 0 []
    (by simp [stateGet, lookupChain, Heap.getFrame, lookupVar, Pointer.sharedAddr])
    rfl rfl

/-- C4: a binary `Equal 1` overwrites the (shared-reassignable) left
handle's target cell in place with the right value and returns the right
Pointer; every `Equal N` with `N ≥ 2` is an equality test at recursion
depth `N − 1` whose result is an owned-fixed Boolean handle, and the
heap after it is exactly the heap after evaluating the operands — no
assignment happens.  `Value::eq` always yields a Boolean (last
conjunct). -/
theorem equal_assigns_only_at_depth_one
    (n st : Nat) (lhs rhs : Syntax) (h h1 h2 : Heap) (p q : Pointer)
    (hlhs : innerInterpret (n + 1) lhs st h = .ok (p, h1))
    (hrhs : innerInterpret n rhs st h1 = .ok (q, h2)) :
    (∀ a, p = .varVar a →
      interpretOperation (n + 2) lhs (.Equal 1) rhs st h =
        .ok (q, h2.setCell a (q.cloneInner h2))) ∧
    (∀ d, interpretOperation (n + 2) lhs (.Equal (d + 2)) rhs st h =
      .ok (.constConst (Value.eq (p.cloneInner h2) (q.cloneInner h2) (d + 1)), h2)) ∧
    (∀ (x y : Value) (d : Nat),
      Value.eq x y d = .boolean (if Value.beq x y then .True else .False)) := by
  refine ⟨?_, ?_, fun x y d => rfl⟩
  · rintro a rfl
    simp only [show n + 2 = (n + 1) + 1 from rfl, interpretOperation, hlhs,
      interpretOperationRhs, hrhs, Pointer.assign]
  · intro d
    have hd : d + 2 - 1 = d + 1 := by omega
    simp only [show n + 2 = (n + 1) + 1 from rfl, interpretOperation, hlhs,
      interpretOperationRhs, hrhs, Pointer.eq, hd]

/-- C4 witness: with `x` bound to a shared cell holding Number 1 and `y`
an owned Number 5, `x = y` (depth 1) overwrites the cell and returns
`y`'s handle, while `x == y` (depth 2) leaves the heap alone and yields
an owned-fixed Boolean. -/
theorem equal_assigns_only_at_depth_one_witness :
    interpretOperation 3 (.ident "x") (.Equal 1) (.ident "y") 0
      ⟨[.number 1], [⟨[("x", .varVar 0), ("y", .constConst (.number 5))], none⟩]⟩ =
      .ok (.constConst (.number 5),
        (Heap.mk [.number 1] [⟨[("x", .varVar 0), ("y", .constConst (.number 5))], none⟩]).setCell 0
          ((Pointer.constConst (.number 5)).cloneInner
            ⟨[.number 1], [⟨[("x", .varVar 0), ("y", .constConst (.number 5))], none⟩]⟩)) ∧
    interpretOperation 3 (.ident "x") (.Equal 2) (.ident "y") 0
      ⟨[.number 1], [⟨[("x", .varVar 0), ("y", .constConst (.number 5))], none⟩]⟩ =
      .ok (.constConst (Value.eq
          ((Pointer.varVar 0).cloneInner
            ⟨[.number 1], [⟨[("x", .varVar 0), ("y", .constConst (.number 5))], none⟩]⟩)
          ((Pointer.constConst (.number 5)).cloneInner
            ⟨[.number 1], [⟨[("x", .varVar 0), ("y", .constConst (.number 5))], none⟩]⟩) 1),
        ⟨[.number 1], [⟨[("x", .varVar 0), ("y", .constConst (.number 5))], none⟩]⟩) := by
  have base := equal_assigns_only_at_depth_one 1 0 (.ident "x") (.ident "y")
    ⟨[.number 1], [⟨[("x", .varVar 0), ("y", .constConst (.number 5))], none⟩]⟩
    ⟨[.number 1], [⟨[("x", .varVar 0), ("y", .constConst (.number 5))], none⟩]⟩
    ⟨[.number 1], [⟨[("x", .varVar 0), ("y", .constConst (.number 5))], none⟩]⟩
    (.varVar 0) (.constConst (.number 5))
    (by simp [innerInterpret, stateGet, lookupChain, Heap.getFrame, lookupVar])
    (by simp [innerInterpret, stateGet, lookupChain, Heap.getFrame, lookupVar])
  exact ⟨base.1 0 rfl, base.2.1 0⟩

/-- C6: invoking the If built-in with fewer than two argument nodes is
the recoverable error the code raises; with at least two, the condition
is evaluated and reduced to a three-valued Boolean: True selects the
then-body (second argument, evaluated in the current environment); Maybe
with a fourth argument present selects that maybe-body; otherwise the
third argument is evaluated when present and Undefined is returned when
absent.  `rest[1]?`/`rest[0]?` are the fourth/third argument of the
call. -/
theorem if_builtin_three_valued_dispatch
    (n st : Nat) (f : Pointer) (h : Heap)
    (hf : f.cloneInner h = .keyword .If) :
    (∀ args, args.length < 2 →
      interpretFunction (n + 2) f args st h =
        .error (.err "If statement requires two arguments: condition and body")) ∧
    (∀ (condition body : Syntax) (rest : List Syntax) (c : Pointer) (h1 : Heap),
      innerInterpret n condition st h = .ok (c, h1) →
      ((c.cloneInner h1).bool = .True →
        interpretFunction (n + 2) f (condition :: body :: rest) st h =
          innerInterpret n body st h1) ∧
      (∀ maybeBody, (c.cloneInner h1).bool = .Maybe → rest[1]? = some maybeBody →
        interpretFunction (n + 2) f (condition :: body :: rest) st h =
          innerInterpret n maybeBody st h1) ∧
      ((c.cloneInner h1).bool ≠ .True →
        ((c.cloneInner h1).bool = .Maybe → rest[1]? = none) →
        (∀ elseBody, rest[0]? = some elseBody →
          interpretFunction (n + 2) f (condition :: body :: rest) st h =
            innerInterpret n elseBody st h1) ∧
        (rest[0]? = none →
          interpretFunction (n + 2) f (condition :: body :: rest) st h =
            .ok (undefinedPtr, h1)))) := by
  have hdispatch : ∀ args, interpretFunction (n + 2) f args st h =
      interpretIf (n + 1) args st h := by
    intro args
    simp only [show n + 2 = (n + 1) + 1 from rfl, interpretFunction, hf]
  constructor
  · intro args hlen
    rw [hdispatch]
    cases args with
    | nil => simp [interpretIf]
    | cons a t =>
      cases t with
      | nil => simp [interpretIf]
      | cons b t2 => rw [List.length_cons, List.length_cons] at hlen; omega
  · intro condition body rest c h1 hcond
    refine ⟨?_, ?_, ?_⟩
    · intro hb
      rw [hdispatch]
      simp only [interpretIf, hcond, hb, if_pos]
    · intro maybeBody hb h3
      rw [hdispatch]
      simp [interpretIf, hcond, hb, h3]
    · intro hb h34
      constructor
      · intro elseBody h2
        rw [hdispatch]
        cases hbv : (c.cloneInner h1).bool with
        | True => exact absurd hbv hb
        | False => simp [interpretIf, hcond, hbv, h2]
        | Maybe => simp [interpretIf, hcond, hbv, h34 hbv, h2]
      · intro h2
        rw [hdispatch]
        cases hbv : (c.cloneInner h1).bool with
        | True => exact absurd hbv hb
        | False => simp [interpretIf, hcond, hbv, h2]
        | Maybe => simp [interpretIf, hcond, hbv, h34 hbv, h2]

/-- C6 witness: with condition Maybe and four arguments, the fourth
(maybe) body is selected; with too few arguments the call errors. -/
theorem if_builtin_three_valued_dispatch_witness :
    interpretFunction 3 (.constConst (.keyword .If))
      [.ident "c", .ident "t", .ident "e", .ident "m"] 0
      ⟨[], [⟨[("c", .constConst (.boolean .Maybe)),
             ("m", .constConst (.number 7))], none⟩]⟩ =
      innerInterpret 1 (.ident "m") 0
        ⟨[], [⟨[("c", .constConst (.boolean .Maybe)),
               ("m", .constConst (.number 7))], none⟩]⟩ ∧
    interpretFunction 3 (.constConst (.keyword .If)) [.ident "c"] 0
      ⟨[], [⟨[("c", .constConst (.boolean .Maybe)),
             ("m", .constConst (.number 7))], none⟩]⟩ =
      .error (.err "If statement requires two arguments: condition and body") := by
  have base := if_builtin_three_valued_dispatch 1 0 (.constConst (.keyword .If))
    ⟨[], [⟨[("c", .constConst (.boolean .Maybe)),
           ("m", .constConst (.number 7))], none⟩]⟩ rfl
  constructor
  · exact (base.2 (.ident "c") (.ident "t") [.ident "e", .ident "m"]
      (.constConst (.boolean .Maybe))
      ⟨[], [⟨[("c", .constConst (.boolean .Maybe)),
             ("m", .constConst (.number 7))], none⟩]⟩
      (by simp [innerInterpret, stateGet, lookupChain, Heap.getFrame, lookupVar])).2.1
      (.ident "m") rfl rfl
  · exact base.1 [.ident "c"] (by simp)

/-- C3: invoking a Function value runs its body in a fresh child frame
whose parent is the calling environment (conjuncts 1–2: success and
failure of the binding pass), where the binding pass evaluates each
declared parameter's argument expression in the caller's environment in
declaration order, binding parameters with no supplied argument to
Undefined (conjuncts 3–5: the defining equations of the pass).  A
Function value carries no definition-site environment at all, so free
identifiers in the body can only resolve through the calling chain. -/
theorem function_value_call_protocol
    (n st : Nat) (f : Pointer) (args : List Syntax) (params : List String)
    (body : Syntax) (h : Heap)
    (hf : f.cloneInner h = .function params body) :
    (∀ vars h1, bindArgs n params args st h [] = .ok (vars, h1) →
      interpretFunction (n + 2) f args st h =
        innerInterpret n body h1.frames.length (h1.pushFrame ⟨vars, some st⟩)) ∧
    (∀ e, bindArgs n params args st h [] = .error e →
      interpretFunction (n + 2) f args st h = .error e) ∧
    (∀ (m st2 : Nat) (h2 : Heap) (args2 : List Syntax)
        (acc : List (String × Pointer)),
      bindArgs m [] args2 st2 h2 acc = .ok (acc, h2)) ∧
    (∀ (m st2 : Nat) (h2 : Heap) (pn : String) (ps : List String)
        (acc : List (String × Pointer)),
      bindArgs (m + 1) (pn :: ps) [] st2 h2 acc =
        bindArgs m ps [] st2 h2 (insertVar acc pn undefinedPtr)) ∧
    (∀ (m st2 : Nat) (h2 : Heap) (pn : String) (ps : List String) (a : Syntax)
        (rest : List Syntax) (acc : List (String × Pointer)) (v : Pointer)
        (h3 : Heap),
      innerInterpret m a st2 h2 = .ok (v, h3) →
      bindArgs (m + 1) (pn :: ps) (a :: rest) st2 h2 acc =
        bindArgs m ps rest st2 h3 (insertVar acc pn v)) := by
  have hdispatch : interpretFunction (n + 2) f args st h =
      interpretUserFn (n + 1) params body args st h := by
    simp only [show n + 2 = (n + 1) + 1 from rfl, interpretFunction, hf]
  refine ⟨?_, ?_, fun m st2 h2 args2 acc => by simp only [bindArgs],
    fun m st2 h2 pn ps acc => by simp only [bindArgs],
    fun m st2 h2 pn ps a rest acc v h3 hv => ?_⟩
  · intro vars h1 hbind
    rw [hdispatch]
    simp only [interpretUserFn, hbind]
  · intro e hbind
    rw [hdispatch]
    simp only [interpretUserFn, hbind]
  · simp only [bindArgs, hv]

/-- C3 witness: a parameterised function with no supplied argument binds
its parameter to Undefined and runs its body in a frame whose parent is
the calling frame; its free identifier `y` then resolves to the caller's
binding (Number 5) — dynamic scoping at a concrete heap. -/
theorem function_value_call_protocol_witness :
    interpretFunction 3 (.constConst (.function ["x"] (.ident "y"))) [] 0
      ⟨[], [⟨[("y", .constConst (.number 5))], none⟩]⟩ =
      innerInterpret 1 (.ident "y") 1
        ((Heap.mk [] [⟨[("y", .constConst (.number 5))], none⟩]).pushFrame
          ⟨[("x", undefinedPtr)], some 0⟩) ∧
    innerInterpret 1 (.ident "y") 1
      ((Heap.mk [] [⟨[("y", .constConst (.number 5))], none⟩]).pushFrame
        ⟨[("x", undefinedPtr)], some 0⟩) =
      .ok (.constConst (.number 5),
        (Heap.mk [] [⟨[("y", .constConst (.number 5))], none⟩]).pushFrame
          ⟨[("x", undefinedPtr)], some 0⟩) := by
  constructor
  · exact (function_value_call_protocol 1 0
      (.constConst (.function ["x"] (.ident "y"))) [] ["x"] (.ident "y")
      ⟨[], [⟨[("y", .constConst (.number 5))], none⟩]⟩ rfl).1
      [("x", undefinedPtr)]
      ⟨[], [⟨[("y", .constConst (.number 5))], none⟩]⟩
      (by simp [bindArgs, insertVar])
  · simp [innerInterpret, stateGet, lookupChain, Heap.getFrame, Heap.pushFrame,
      lookupVar]

/-- C9 counterexample: the Arrow operator is `todo!()` in the source — a
panic.  At a concrete input the evaluation ends in the fatal fault
`not yet implemented`, which is not on the recoverable error channel, so
the claim that the failure is "propagated as a recoverable evaluation
failure, rather than crashing" is false. -/
theorem arrow_operator_counterexample :
    interpretOperation 3 (.ident "x") .Arrow (.ident "y") 0 ⟨[], [⟨[], none⟩]⟩ =
      .error (.fatal "not yet implemented") ∧
    Res.isRecoverableErr
      (interpretOperation 3 (.ident "x") .Arrow (.ident "y") 0
        ⟨[], [⟨[], none⟩]⟩) = false := by
  have hres : interpretOperation 3 (.ident "x") .Arrow (.ident "y") 0
      ⟨[], [⟨[], none⟩]⟩ = .error (.fatal "not yet implemented") := by
    simp [interpretOperation, innerInterpret, interpretOperationRhs, stateGet,
      lookupChain, Heap.getFrame, lookupVar]
  exact ⟨hres, by rw [hres]; rfl⟩

/-- C9 (amended): evaluating a binary Arrow operation, once both
operands evaluate successfully, always fails with the `not yet
implemented` panic — a fatal fault that unwinds past the evaluator, not
a recoverable evaluation error — so the operator is never silently
accepted. -/
theorem arrow_operator_panics_not_implemented
    (n st : Nat) (lhs rhs : Syntax) (h h1 h2 : Heap) (p q : Pointer)
    (hlhs : innerInterpret (n + 1) lhs st h = .ok (p, h1))
    (hrhs : innerInterpret n rhs st h1 = .ok (q, h2)) :
    interpretOperation (n + 2) lhs .Arrow rhs st h =
      .error (.fatal "not yet implemented") ∧
    Res.isRecoverableErr (interpretOperation (n + 2) lhs .Arrow rhs st h) =
      false := by
  have hres : interpretOperation (n + 2) lhs .Arrow rhs st h =
      .error (.fatal "not yet implemented") := by
    simp only [show n + 2 = (n + 1) + 1 from rfl, interpretOperation, hlhs,
      interpretOperationRhs, hrhs]
  exact ⟨hres, by rw [hres]; rfl⟩

/-- C9 witness: the amended claim at a concrete input — identifiers
`x`, `y` (both unbound, evaluating to Undefined) joined by Arrow. -/
theorem arrow_operator_panics_not_implemented_witness :
    interpretOperation 4 (.ident "x") .Arrow (.ident "y") 0 ⟨[], [⟨[], none⟩]⟩ =
      .error (.fatal "not yet implemented") ∧
    Res.isRecoverableErr
      (interpretOperation 4 (.ident "x") .Arrow (.ident "y") 0
        ⟨[], [⟨[], none⟩]⟩) = false :=
  arrow_operator_panics_not_implemented 2 0 (.ident "x") (.ident "y")
    ⟨[], [⟨[], none⟩]⟩ ⟨[], [⟨[], none⟩]⟩ ⟨[], [⟨[], none⟩]⟩
    undefinedPtr undefinedPtr
    (by simp [innerInterpret, stateGet, lookupChain, Heap.getFrame, lookupVar])
    (by simp [innerInterpret, stateGet, lookupChain, Heap.getFrame, lookupVar])

/-- C10: evaluating an Identifier node always succeeds with a Pointer —
it is exactly `State::get`, whose type returns a Pointer and never an
error — and the callee resolution of a Call node is the same infallible
lookup before the invocation protocol runs; a name bound nowhere in the
chain yields the undefined Pointer rather than a failure. -/
theorem identifier_lookup_never_fails :
    (∀ (n st : Nat) (name : String) (h : Heap),
      innerInterpret (n + 1) (.ident name) st h = .ok (stateGet h st name, h)) ∧
    (∀ (n st : Nat) (fname : String) (args : List Syntax) (h : Heap),
      innerInterpret (n + 1) (.call fname args) st h =
        interpretFunction n (stateGet h st fname) args st h) ∧
    (∀ name : String, stateGet ⟨[], [⟨[], none⟩]⟩ 0 name = undefinedPtr) := by
  refine ⟨fun n st name h => by simp [innerInterpret],
    fun n st fname args h => by simp [innerInterpret],
    fun name => by simp [stateGet, lookupChain, Heap.getFrame, lookupVar]⟩

end DreamBerd
